import Mathlib

/-!
Verification development for the railway-image-updater service.

The program is a small Go HTTP service: it validates an update request,
lists the services of a deployment environment through a remote GraphQL
API, matches each service's container image against a list of image-name
markers, rewrites the tag of every matched image, and issues an update
mutation followed by a deploy mutation for each matched service.

Embedding conventions:
* Go strings that are inspected structurally (images, version tags,
  image-name markers) are modelled as `List Char`; Go `strings.Split`,
  `strings.HasPrefix` and concatenation become the corresponding list
  operations.  Opaque strings (ids, names, messages) stay `String`.
* JSON values decoded by `encoding/json` into `map[string]interface{}`
  are modelled by the inductive `JsonValue`; Go's `float64` numbers are
  modelled as rationals (every decimal literal is exact there), objects
  as association lists whose order stands for Go's map iteration order.
* Remote calls are modelled by oracles giving each call's outcome, and
  the sequence of issued mutations is recorded as an explicit trace.
-/

/-- A Go string viewed as its list of characters. -/
abbrev GoStr := List Char

/-- A decoded JSON value, as produced by `json.Unmarshal` into
`map[string]interface{}`: objects become maps (here association lists in
iteration order), numbers become `float64` (here rationals), and so on. -/
inductive JsonValue where
  | null
  | bool (b : Bool)
  | num (q : ℚ)
  | str (s : String)
  | arr (elems : List JsonValue)
  | obj (fields : List (String × JsonValue))

/-- Go map lookup `m[key]` on the association-list model of a decoded
JSON object (keys of a decoded map are unique, so first match is the
map entry); an absent key yields `none`, as `m[key]` yields `nil`. -/
def lookupField : List (String × JsonValue) → String → Option JsonValue
  | [], _ => none
  | (k, v) :: rest, key => if key = k then some v else lookupField rest key

/-- The smallest 64-bit signed integer, `math.MinInt64`. -/
def minInt64 : Int := -(2 ^ 63)

/-- The largest 64-bit signed integer, `math.MaxInt64`. -/
def maxInt64 : Int := 2 ^ 63 - 1

/-- Go's `int(x)` conversion of a `float64`, on the rational model of
JSON numbers, for the gc/amd64 platform the repository's Dockerfile
builds for (64-bit `int`): truncation toward zero when the truncated
value is representable in 64 bits; when it is not, the conversion is
implementation-dependent and yields `math.MinInt64` on that platform
(JSON numbers are finite, so the NaN case cannot arise here). -/
def truncToInt (q : ℚ) : Int :=
  let t := Int.tdiv q.num (q.den : Int)
  if t < minInt64 ∨ maxInt64 < t then minInt64 else t

/-- The raw `latestDeployment.meta` payload of a service, before any
decoding.  `resolveReplicaCount` runs up to three `json.Unmarshal`
steps on it; this type records just what those steps can observe:
* `jsonObject fields` — the payload is a JSON object (direct decode
  into a map succeeds with `fields`);
* `jsonString inner` — the payload is a JSON string (direct decode into
  a map fails, decode into a string succeeds); `inner` is `some fields`
  when the string's contents parse as a JSON object, `none` otherwise;
* `otherJson` — valid JSON that is neither an object nor a string
  (array, number, bool, or `null`; for `null` the Go map decode
  "succeeds" with a nil map, and every later lookup then fails, which
  is observationally the same default-1 path);
* `notJson` — the payload is not valid JSON at all. -/
inductive RawMeta where
  | jsonObject (fields : List (String × JsonValue))
  | jsonString (inner : Option (List (String × JsonValue)))
  | otherJson
  | notJson

/-- The decode phase of `resolveReplicaCount` (railway client, lines
207-221): direct unmarshal into a map, else unmarshal as a string and
unmarshal that string's contents into a map; `none` means every decode
path failed (or the meta was absent) and the default applies. -/
def metaFields : Option RawMeta → Option (List (String × JsonValue))
  | none => none
  | some (.jsonObject fields) => some fields
  | some (.jsonString (some fields)) => some fields
  | some (.jsonString none) => none
  | some .otherJson => none
  | some .notJson => none

/-- The `numReplicas` number of one region's entry of
`multiRegionConfig`, when the entry is an object carrying a numeric
`numReplicas` field (the two type assertions of lines 244-248). -/
def regionNum : String × JsonValue → Option ℚ
  | (_, .obj regionMap) =>
      match lookupField regionMap "numReplicas" with
      | some (.num q) => some q
      | _ => none
  | _ => none

/-- One iteration of the region loop (lines 243-253): a region counts
as a hit when its `numReplicas` is numeric and strictly positive, and
the hit value is Go's `int(numReplicas)` truncation. -/
def regionHit (rc : String × JsonValue) : Option Int :=
  match regionNum rc with
  | some q => if 0 < q then some (truncToInt q) else none
  | none => none

/-- The region loop of `resolveReplicaCount`: return the hit of the
first region (in map iteration order) whose `numReplicas` is numeric
and strictly positive, else nothing. -/
def scanRegions : List (String × JsonValue) → Option Int
  | [] => none
  | rc :: rest =>
      match regionHit rc with
      | some n => some n
      | none => scanRegions rest

/-- The navigation `meta.serviceManifest.deploy.multiRegionConfig` of
lines 224-240; each failed lookup or type assertion yields `none`
(the Go code returns the default 1 at that point). -/
def metaMRC (meta : Option RawMeta) : Option (List (String × JsonValue)) :=
  match metaFields meta with
  | none => none
  | some fields =>
      match lookupField fields "serviceManifest" with
      | some (.obj sm) =>
          match lookupField sm "deploy" with
          | some (.obj dep) =>
              match lookupField dep "multiRegionConfig" with
              | some (.obj mrc) => some mrc
              | _ => none
          | _ => none
      | _ => none

/-- `resolveReplicaCount` (railway client, lines 197-257): decode the
deployment meta, navigate to `multiRegionConfig`, take the first region
reporting a positive `numReplicas`, and default to 1 whenever any step
fails.  `meta = none` models both a nil `latestDeployment` and a nil
`Meta` field. -/
def resolveReplicaCount (meta : Option RawMeta) : Int :=
  match metaMRC meta with
  | none => 1
  | some mrc =>
      match scanRegions mrc with
      | some n => n
      | none => 1

/-- The deployment meta whose `multiRegionConfig` is `mrc`, wrapped in
the standard `serviceManifest.deploy` nesting. -/
def metaOfMRC (mrc : List (String × JsonValue)) : RawMeta :=
  .jsonObject
    [("serviceManifest", .obj
      [("deploy", .obj
        [("multiRegionConfig", .obj mrc)])])]

/-- Go's `strings.Split(s, ":")` on the `List Char` model of strings:
split at every `':'`; the empty string splits to one empty piece. -/
def splitOnColon : GoStr → List GoStr
  | [] => [[]]
  | c :: rest =>
      if c = ':' then [] :: splitOnColon rest
      else
        match splitOnColon rest with
        | s :: ss => (c :: s) :: ss
        | [] => [[c]]

/-- The tag rewrite of `UpdateServices` (railway client, lines
369-378): split the image at `':'`; with more than one part keep
`imageParts[0]` and attach the new version, otherwise append
`":" + newVersion` to the whole image. -/
def rewriteImage (image newVersion : GoStr) : GoStr :=
  match splitOnColon image with
  | firstPart :: _ :: _ => firstPart ++ ':' :: newVersion
  | _ => image ++ ':' :: newVersion

/-- The rewrite fallback of `UpdateServices` (lines 380-384): if the
tag-substituted image no longer starts with the marker that matched the
original image, use `marker + ":" + newVersion` instead. -/
def finalImage (image marker newVersion : GoStr) : GoStr :=
  let newImage := rewriteImage image newVersion
  if marker.isPrefixOf newImage then newImage else marker ++ ':' :: newVersion

/-- `matchesPrefix` of `main.go` (lines 126-133): does the image start
with at least one of the configured image-name markers
(`strings.HasPrefix`, so a case-sensitive literal comparison)? -/
def matchesPrefix : GoStr → List GoStr → Bool
  | _, [] => false
  | image, m :: rest => if m.isPrefixOf image then true else matchesPrefix image rest

/-- One service as produced by `GetServices` (the Go `Service`
struct). -/
structure Service where
  id : String
  name : String
  image : GoStr
  numReplicas : Int

/-- One decoded node of the environment query's `serviceInstances`
edge list; `meta = none` models both a nil `latestDeployment` and a nil
`Meta` field. -/
structure ServiceNode where
  serviceId : String
  serviceName : String
  image : GoStr
  meta : Option RawMeta

/-- `GetServices` (lines 102-192), with the remote query abstracted to
the decoded node list it returns: keep every node with a non-empty
image source, resolving its replica count from the deployment meta. -/
def GetServices (nodes : List ServiceNode) : List Service :=
  nodes.filterMap fun n =>
    if n.image = [] then none
    else some
      { id := n.serviceId
        name := n.serviceName
        image := n.image
        numReplicas := resolveReplicaCount n.meta }

/-- One remote GraphQL mutation issued by the updater, in the order the
requests are sent. -/
inductive RemoteEvent where
  | updateInstance (serviceId : String) (newImage : GoStr) (numReplicas : Int)
  | deploy (serviceId : String)

/-- Outcomes of the two mutations for each service id: `none` is
success, `some msg` is the error the call reports. -/
structure RemoteOracle where
  updateResult : String → Option String
  deployResult : String → Option String

/-- `UpdateServiceImage` (lines 259-312): issue the
`serviceInstanceUpdate` mutation, and only when it succeeds the
`serviceInstanceDeploy` mutation; the returned trace records the calls
actually issued, the returned option the wrapped error, if any. -/
def UpdateServiceImage (oracle : RemoteOracle) (serviceId : String)
    (newImage : GoStr) (numReplicas : Int) : List RemoteEvent × Option String :=
  match oracle.updateResult serviceId with
  | some msg =>
      ([.updateInstance serviceId newImage numReplicas],
       some ("failed to update service instance: " ++ msg))
  | none =>
      match oracle.deployResult serviceId with
      | some msg =>
          ([.updateInstance serviceId newImage numReplicas, .deploy serviceId],
           some ("failed to deploy service instance: " ++ msg))
      | none =>
          ([.updateInstance serviceId newImage numReplicas, .deploy serviceId], none)

/-- Result of the update loop: the trace of issued mutations, the names
of the services updated so far (in input order), and the error that
stopped the loop, if any. -/
structure UpdateRun where
  trace : List RemoteEvent
  updated : List String
  err : Option String

/-- The per-service loop of `UpdateServices` (lines 351-396): find the
first matching image-name marker, compute the rewritten image, issue
update and deploy; on the first failing service stop and return the
names accumulated so far with the wrapping error, otherwise record the
name and continue. -/
def updateServicesLoop (oracle : RemoteOracle) (markers : List GoStr)
    (newVersion : GoStr) : List Service → UpdateRun
  | [] => ⟨[], [], none⟩
  | service :: rest =>
      match List.find? (fun m => m.isPrefixOf service.image) markers with
      | none => updateServicesLoop oracle markers newVersion rest
      | some marker =>
          let newImage := finalImage service.image marker newVersion
          match UpdateServiceImage oracle service.id newImage service.numReplicas with
          | (evs, some msg) =>
              ⟨evs, [], some ("failed to update service " ++ service.name ++ ": " ++ msg)⟩
          | (evs, none) =>
              let r := updateServicesLoop oracle markers newVersion rest
              ⟨evs ++ r.trace, service.name :: r.updated, r.err⟩

/-- `UpdateServices` (lines 345-397) with the environment listing
abstracted to its decoded nodes: list the services, then run the update
loop over them. -/
def UpdateServices (oracle : RemoteOracle) (nodes : List ServiceNode)
    (markers : List GoStr) (newVersion : GoStr) : UpdateRun :=
  updateServicesLoop oracle markers newVersion (GetServices nodes)

/-- The decoded `UpdateRequest` body of `main.go`. -/
structure UpdateRequest where
  projectId : String
  environmentId : String
  imagePrefixes : List GoStr
  newVersion : GoStr

/-- The request method, as far as the handler inspects it. -/
inductive HttpMethod where
  | put
  | get
  | post
  | other

/-- The request body as seen after `json.Decode`: either a decode
failure carrying the decoder's message, or a decoded request. -/
inductive RequestBody where
  | malformed (decodeErr : String)
  | parsed (req : UpdateRequest)

/-- The JSON body the handler writes back: `ErrorResponse` or
`SuccessResponse` of `main.go`.  The updated-services list of a
`successResp` is always a present list value (Go marshals the non-nil
`[]string` the handler constructs to a JSON array, never `null`). -/
inductive ResponseBody where
  | errorResp (error : String)
  | successResp (message : String) (updatedServices : List String)

/-- What one call of `handleUpdate` produces: the status code, the
response body, and whether `client.UpdateServices` was reached. -/
structure HandlerResult where
  status : Nat
  body : ResponseBody
  calledRemote : Bool

/-- `handleUpdate` (`main.go`, lines 61-124).  `uuidValid` is the
verdict of the third-party `uuid.Parse` (the handler only branches on
whether it errors); `remote` is the outcome of
`client.UpdateServices`, consulted only when every validation step
passed. -/
def handleUpdate (uuidValid : String → Bool) (remote : Except String (List String))
    (method : HttpMethod) (body : RequestBody) : HandlerResult :=
  match method with
  | .put =>
      match body with
      | .malformed decodeErr => ⟨400, .errorResp ("Invalid JSON: " ++ decodeErr), false⟩
      | .parsed req =>
          if uuidValid req.projectId = false then
            ⟨400, .errorResp "Invalid project_id: must be a valid UUID", false⟩
          else if uuidValid req.environmentId = false then
            ⟨400, .errorResp "Invalid environment_id: must be a valid UUID", false⟩
          else if req.imagePrefixes.length = 0 then
            ⟨400, .errorResp "image_prefixes cannot be empty", false⟩
          else if req.newVersion = [] then
            ⟨400, .errorResp "new_version cannot be empty", false⟩
          else
            match remote with
            | .error e => ⟨500, .errorResp ("Failed to update services: " ++ e), true⟩
            | .ok updated =>
                if updated.length = 0 then
                  ⟨200, .successResp "No services matched the provided image prefixes" [], true⟩
                else
                  ⟨200,
                   .successResp ("Successfully updated " ++ toString updated.length ++ " service(s)")
                     updated, true⟩
  | _ => ⟨405, .errorResp "Method not allowed, use PUT", false⟩

/-! ## Helper lemmas -/

lemma isPrefixOf_eq_true_iff {l₁ l₂ : GoStr} : l₁.isPrefixOf l₂ = true ↔ l₁ <+: l₂ :=
  List.isPrefixOf_iff_prefix

lemma matchesPrefix_true_iff (image : GoStr) (markers : List GoStr) :
    matchesPrefix image markers = true ↔ ∃ m ∈ markers, m <+: image := by
  induction markers with
  | nil => simp [matchesPrefix]
  | cons m rest ih =>
      by_cases h : m.isPrefixOf image = true
      · simp [matchesPrefix, h, isPrefixOf_eq_true_iff.mp h]
      · simp only [Bool.not_eq_true] at h
        have hstep : matchesPrefix image (m :: rest) = matchesPrefix image rest := by
          simp [matchesPrefix, h]
        rw [hstep, ih]
        constructor
        · rintro ⟨x, hx, hpre⟩
          exact ⟨x, List.mem_cons_of_mem _ hx, hpre⟩
        · rintro ⟨x, hx, hpre⟩
          rcases List.mem_cons.mp hx with rfl | hx
          · exact absurd (isPrefixOf_eq_true_iff.mpr hpre) (by simp [h])
          · exact ⟨x, hx, hpre⟩

lemma matchesPrefix_false_iff (image : GoStr) (markers : List GoStr) :
    matchesPrefix image markers = false ↔
      List.find? (fun m => m.isPrefixOf image) markers = none := by
  induction markers with
  | nil => simp [matchesPrefix]
  | cons m rest ih =>
      by_cases h : m.isPrefixOf image = true
      · simp [matchesPrefix, h, List.find?_cons_of_pos _ h]
      · simp only [Bool.not_eq_true] at h
        rw [List.find?_cons_of_neg _ (by simp [h])]
        simp [matchesPrefix, h, ih]

lemma find?_eq_some_first {α : Type _} (p : α → Bool) :
    ∀ (l : List α) (a : α), l.find? p = some a →
      ∃ l₁ l₂, l = l₁ ++ a :: l₂ ∧ p a = true ∧ ∀ b ∈ l₁, p b = false := by
  intro l
  induction l with
  | nil => intro a h; simp [List.find?] at h
  | cons x rest ih =>
      intro a h
      by_cases hx : p x = true
      · rw [List.find?_cons_of_pos _ hx] at h
        cases h
        exact ⟨[], rest, rfl, hx, by simp⟩
      · simp only [Bool.not_eq_true] at hx
        rw [List.find?_cons_of_neg _ (by simp [hx])] at h
        obtain ⟨l₁, l₂, rfl, hpa, hall⟩ := ih a h
        refine ⟨x :: l₁, l₂, rfl, hpa, ?_⟩
        intro b hb
        rcases List.mem_cons.mp hb with hb | hb
        · exact hb ▸ hx
        · exact hall b hb

/-! ## Claim theorems -/

/-- C2: replica resolution returns 3 for the direct
`serviceManifest.deploy.multiRegionConfig.us-east4.numReplicas = 3`
object, 1 for absent metadata, 1 when the only region reports
`numReplicas = 0`, the same result as the direct-object case for a
JSON-encoded string containing that object (the fourth conjunct states
the general agreement, the fifth the concrete case), and 1 for
malformed or unparseable metadata. -/
theorem resolveReplicaCount_cases :
    resolveReplicaCount
      (some (metaOfMRC [("us-east4", .obj [("numReplicas", .num 3)])])) = 3 ∧
    resolveReplicaCount none = 1 ∧
    resolveReplicaCount
      (some (metaOfMRC [("us-east4", .obj [("numReplicas", .num 0)])])) = 1 ∧
    (∀ fields, resolveReplicaCount (some (.jsonString (some fields))) =
      resolveReplicaCount (some (.jsonObject fields))) ∧
    resolveReplicaCount
      (some (.jsonString (some
        [("serviceManifest", .obj
          [("deploy", .obj
            [("multiRegionConfig", .obj
              [("us-east4", .obj [("numReplicas", .num 3)])])])])]))) = 3 ∧
    resolveReplicaCount (some .notJson) = 1 ∧
    resolveReplicaCount (some (.jsonString none)) = 1 ∧
    resolveReplicaCount (some .otherJson) = 1 :=
  ⟨by decide, by decide, by decide, fun fields => rfl, by decide, by decide, by decide, by decide⟩

/-- C5: when the tag-substituted image no longer starts with the marker
that matched the original image, the final image is exactly
`marker ++ ":" ++ version`, and otherwise the tag-substituted image is
used unchanged. -/
theorem finalImage_fallback :
    ∀ (image marker newVersion : GoStr),
      (marker.isPrefixOf (rewriteImage image newVersion) = false →
        finalImage image marker newVersion = marker ++ ':' :: newVersion) ∧
      (marker.isPrefixOf (rewriteImage image newVersion) = true →
        finalImage image marker newVersion = rewriteImage image newVersion) := by
  intro image marker newVersion
  constructor
  · intro h
    simp [finalImage, h]
  · intro h
    simp [finalImage, h]

/-- Witness for `finalImage_fallback`: for the image
`myreg:5000/app:v1` matched by marker `myreg:5000/app`, the naive
rewrite is `myreg:v2`, which loses the marker, so the fallback applies
and the final image discards the repository path. -/
theorem finalImage_fallback_witness :
    finalImage "myreg:5000/app:v1".toList "myreg:5000/app".toList "v2".toList =
      "myreg:5000/app".toList ++ ':' :: "v2".toList :=
  (finalImage_fallback "myreg:5000/app:v1".toList "myreg:5000/app".toList "v2".toList).1
    (by decide)

/-- C6: `matchesPrefix` is true iff the image starts with at least one
marker of the list (a case-sensitive literal comparison, stated via
`List.IsPrefix` on the character lists); the marker the update loop
selects via `List.find?` is the first applicable one in list order; and
the three concrete examples of the spec evaluate as stated. -/
theorem matchesPrefix_spec :
    (∀ (image : GoStr) (markers : List GoStr),
      matchesPrefix image markers = true ↔ ∃ m ∈ markers, m <+: image) ∧
    (∀ (image : GoStr) (markers : List GoStr) (m : GoStr),
      List.find? (fun x => x.isPrefixOf image) markers = some m →
      ∃ l₁ l₂, markers = l₁ ++ m :: l₂ ∧ m <+: image ∧ ∀ b ∈ l₁, ¬ b <+: image) ∧
    matchesPrefix "myapp:v1".toList ["myapp".toList] = true ∧
    matchesPrefix "otherapp:v1".toList ["myapp".toList] = false ∧
    matchesPrefix "myapp:v1".toList ["myapp".toList, "otherapp".toList] = true := by
  refine ⟨matchesPrefix_true_iff, ?_, by decide, by decide, by decide⟩
  intro image markers m h
  obtain ⟨l₁, l₂, rfl, hm, hall⟩ := find?_eq_some_first _ markers m h
  refine ⟨l₁, l₂, rfl, isPrefixOf_eq_true_iff.mp hm, ?_⟩
  intro b hb hcontra
  have := hall b hb
  rw [isPrefixOf_eq_true_iff.mpr hcontra] at this
  exact Bool.true_eq_false.mp this

/-- Witness for `matchesPrefix_spec`: the first-match characterization
applied to `myapp:v1` against the marker list `[myapp, otherapp]`. -/
theorem matchesPrefix_spec_witness :
    ∃ l₁ l₂, (["myapp".toList, "otherapp".toList] : List GoStr) =
        l₁ ++ "myapp".toList :: l₂ ∧ "myapp".toList <+: "myapp:v1".toList ∧
        ∀ b ∈ l₁, ¬ b <+: "myapp:v1".toList :=
  matchesPrefix_spec.2.1 "myapp:v1".toList ["myapp".toList, "otherapp".toList]
    "myapp".toList (by decide)

lemma updateServicesLoop_no_match (oracle : RemoteOracle) (markers : List GoStr)
    (newVersion : GoStr) :
    ∀ services : List Service,
      (∀ s ∈ services, matchesPrefix s.image markers = false) →
      updateServicesLoop oracle markers newVersion services = ⟨[], [], none⟩ := by
  intro services
  induction services with
  | nil => intro _; rfl
  | cons s rest ih =>
      intro h
      have hfind := (matchesPrefix_false_iff s.image markers).mp
        (h s (List.mem_cons_self s rest))
      simp [updateServicesLoop, hfind, ih (fun t ht => h t (List.mem_cons_of_mem _ ht))]

lemma updateServicesLoop_all_success (oracle : RemoteOracle) (markers : List GoStr)
    (newVersion : GoStr) (hmark : [] ∈ markers) :
    ∀ services : List Service,
      (∀ s ∈ services, oracle.updateResult s.id = none ∧ oracle.deployResult s.id = none) →
      (updateServicesLoop oracle markers newVersion services).updated =
        services.map Service.name ∧
      (updateServicesLoop oracle markers newVersion services).err = none := by
  intro services
  induction services with
  | nil => intro _; exact ⟨rfl, rfl⟩
  | cons s rest ih =>
      intro h
      have hsome : (List.find? (fun m => m.isPrefixOf s.image) markers).isSome :=
        List.find?_isSome.mpr ⟨[], hmark, isPrefixOf_eq_true_iff.mpr List.nil_prefix⟩
      obtain ⟨marker, hfind⟩ := Option.isSome_iff_exists.mp hsome
      have hs := h s (List.mem_cons_self s rest)
      have hrest := ih (fun t ht => h t (List.mem_cons_of_mem _ ht))
      simp [updateServicesLoop, hfind, UpdateServiceImage, hs.1, hs.2, hrest.1, hrest.2]

lemma splitOnColon_ne_nil (l : GoStr) : splitOnColon l ≠ [] := by
  cases l with
  | nil => simp [splitOnColon]
  | cons c rest =>
      simp only [splitOnColon]
      by_cases h : c = ':'
      · simp [h]
      · rw [if_neg h]
        cases splitOnColon rest <;> simp

lemma splitOnColon_no_colon (l : GoStr) (h : ':' ∉ l) : splitOnColon l = [l] := by
  induction l with
  | nil => rfl
  | cons c rest ih =>
      simp only [List.mem_cons, not_or] at h
      obtain ⟨hc, hrest⟩ := h
      simp only [splitOnColon]
      rw [if_neg (fun hcc => hc hcc.symm), ih hrest]

lemma splitOnColon_append_colon (a b : GoStr) (h : ':' ∉ a) :
    splitOnColon (a ++ ':' :: b) = a :: splitOnColon b := by
  induction a with
  | nil => simp [splitOnColon]
  | cons c rest ih =>
      simp only [List.mem_cons, not_or] at h
      obtain ⟨hc, hrest⟩ := h
      simp only [List.cons_append, splitOnColon]
      rw [if_neg (fun hcc => hc hcc.symm)]
      have hi : splitOnColon (List.append rest (':' :: b)) = rest :: splitOnColon b :=
        ih hrest
      rw [hi]

/-- The portion of the image before its last colon (used only to state
the specification's version of the rewrite rule). -/
def beforeLastColon (image : GoStr) : GoStr :=
  ((image.reverse.dropWhile (· != ':')).drop 1).reverse

/-- The tag rewrite as the specification words it: replace everything
after the LAST `:` separator with the new version, or append
`:<version>` when the image contains no separator.  Stated from the
spec for comparison with the code's `rewriteImage`. -/
def rewriteLastColon (image newVersion : GoStr) : GoStr :=
  if ':' ∈ image then beforeLastColon image ++ ':' :: newVersion
  else image ++ ':' :: newVersion

/-- C1 counterexample: for the image `myreg:5000/app:v1` (two colons)
the code keeps only the part before the FIRST colon and produces
`myreg:v2`, while the claimed last-separator rule produces
`myreg:5000/app:v2`; the two disagree, refuting the claim as stated
(the claim's own one-colon examples are unaffected). -/
theorem rewriteImage_not_last_colon :
    rewriteImage "myreg:5000/app:v1".toList "v2".toList = "myreg:v2".toList ∧
    rewriteLastColon "myreg:5000/app:v1".toList "v2".toList = "myreg:5000/app:v2".toList ∧
    rewriteImage "myreg:5000/app:v1".toList "v2".toList ≠
      rewriteLastColon "myreg:5000/app:v1".toList "v2".toList :=
  ⟨by decide, by decide, by decide⟩

/-- C1 (amended): the rewrite replaces everything after the FIRST `:`
separator of the image (not the last): for an image `a ++ ":" ++ b`
with colon-free `a` the result is `a ++ ":" ++ version`; for a
colon-free image the result appends `":" ++ version`; and both concrete
spec examples hold. -/
theorem rewriteImage_first_colon :
    (∀ a b newVersion : GoStr, ':' ∉ a →
      rewriteImage (a ++ ':' :: b) newVersion = a ++ ':' :: newVersion) ∧
    (∀ image newVersion : GoStr, ':' ∉ image →
      rewriteImage image newVersion = image ++ ':' :: newVersion) ∧
    rewriteImage "myapp:v1.0.0".toList "v2".toList = "myapp:v2".toList ∧
    rewriteImage "myapp".toList "v2".toList = "myapp:v2".toList := by
  refine ⟨?_, ?_, by decide, by decide⟩
  · intro a b newVersion h
    obtain ⟨s, ss, hbs⟩ : ∃ s ss, splitOnColon b = s :: ss := by
      cases hb : splitOnColon b with
      | nil => exact absurd hb (splitOnColon_ne_nil b)
      | cons s ss => exact ⟨s, ss, rfl⟩
    simp [rewriteImage, splitOnColon_append_colon a b h, hbs]
  · intro image newVersion h
    simp [rewriteImage, splitOnColon_no_colon image h]

/-- Witness for `rewriteImage_first_colon`: the first-colon rule at the
spec's own example image. -/
theorem rewriteImage_first_colon_witness :
    rewriteImage ("myapp".toList ++ ':' :: "v1.0.0".toList) "v2".toList =
      "myapp".toList ++ ':' :: "v2".toList :=
  rewriteImage_first_colon.1 "myapp".toList "v1.0.0".toList "v2".toList (by decide)

/-- A region reporting 2 replicas. -/
def regionA : String × JsonValue := ("region-a", .obj [("numReplicas", .num 2)])

/-- A region reporting 3 replicas. -/
def regionB : String × JsonValue := ("region-b", .obj [("numReplicas", .num 3)])

/-- A region reporting 0 replicas (treated as unset). -/
def regionZ : String × JsonValue := ("region-z", .obj [("numReplicas", .num 0)])

/-- C4 counterexample: the same multiRegionConfig map presented in two
iteration orders (the Go code ranges over a map, whose iteration order
is unspecified and varies between runs) yields different replica counts
as soon as two regions report different positive counts, refuting the
claimed run-to-run determinism. -/
theorem resolveReplicaCount_order_dependent :
    List.Perm [regionA, regionB] [regionB, regionA] ∧
    1 < ([regionA, regionB].filterMap regionHit).length ∧
    resolveReplicaCount (some (metaOfMRC [regionA, regionB])) = 2 ∧
    resolveReplicaCount (some (metaOfMRC [regionB, regionA])) = 3 :=
  ⟨List.Perm.swap regionB regionA [], by decide, by decide, by decide⟩

lemma scanRegions_eq_head? : ∀ l, scanRegions l = (l.filterMap regionHit).head? := by
  intro l
  induction l with
  | nil => rfl
  | cons rc rest ih =>
      cases h : regionHit rc <;> simp [scanRegions, h, List.filterMap_cons, ih]

lemma resolveReplicaCount_metaOfMRC (mrc : List (String × JsonValue)) :
    resolveReplicaCount (some (metaOfMRC mrc)) =
      match scanRegions mrc with
      | some n => n
      | none => 1 := rfl

/-- C4 (amended): region iteration order is a Go map's, hence
unspecified; what holds is that two runs (any two iteration orders of
the same region map) agree whenever at most one region reports a
positive count — with two or more positive regions the selected region
may differ between runs, as the counterexample shows. -/
theorem resolveReplicaCount_deterministic_single_hit :
    ∀ (mrc₁ mrc₂ : List (String × JsonValue)),
      mrc₁.Perm mrc₂ →
      (mrc₁.filterMap regionHit).length ≤ 1 →
      resolveReplicaCount (some (metaOfMRC mrc₁)) =
        resolveReplicaCount (some (metaOfMRC mrc₂)) := by
  intro mrc₁ mrc₂ hperm hlen
  have hp : (mrc₁.filterMap regionHit).Perm (mrc₂.filterMap regionHit) :=
    hperm.filterMap _
  have heq : mrc₁.filterMap regionHit = mrc₂.filterMap regionHit := by
    rcases hl : mrc₁.filterMap regionHit with _ | ⟨x, xs⟩
    · rw [hl] at hp
      exact (List.Perm.eq_nil hp.symm).symm
    · rw [hl] at hp hlen
      cases xs with
      | nil => exact (List.perm_singleton.mp hp.symm).symm
      | cons y ys => simp at hlen
  rw [resolveReplicaCount_metaOfMRC, resolveReplicaCount_metaOfMRC,
    scanRegions_eq_head? mrc₁, scanRegions_eq_head? mrc₂, heq]

/-- Witness for `resolveReplicaCount_deterministic_single_hit`: with a
zero region and one positive region, both iteration orders agree. -/
theorem resolveReplicaCount_deterministic_single_hit_witness :
    resolveReplicaCount (some (metaOfMRC [regionZ, regionB])) =
      resolveReplicaCount (some (metaOfMRC [regionB, regionZ])) :=
  resolveReplicaCount_deterministic_single_hit [regionZ, regionB] [regionB, regionZ]
    (List.Perm.swap regionB regionZ []) (by decide)

lemma tdiv_le_maxInt64 {q : ℚ} (hpos : 0 < q) (hle : q ≤ (maxInt64 : ℚ)) :
    Int.tdiv q.num (q.den : Int) ≤ maxInt64 := by
  have hnum : 0 ≤ q.num := le_of_lt (Rat.num_pos.mpr hpos)
  have hden : (0 : Int) ≤ (q.den : Int) := by positivity
  rw [Int.tdiv_eq_ediv hnum hden]
  have hfl : q.num / (q.den : Int) = ⌊q⌋ := Rat.floor_def.symm
  rw [hfl]
  calc ⌊q⌋ ≤ ⌊(maxInt64 : ℚ)⌋ := Int.floor_le_floor hle
    _ = maxInt64 := Int.floor_intCast _

lemma truncToInt_nonneg {q : ℚ} (h : 0 < q) (hle : q ≤ (maxInt64 : ℚ)) :
    0 ≤ truncToInt q := by
  have ht : 0 ≤ Int.tdiv q.num (q.den : Int) :=
    Int.tdiv_nonneg (le_of_lt (Rat.num_pos.mpr h)) (by positivity)
  have hmax := tdiv_le_maxInt64 h hle
  have hmin : minInt64 < 0 := by norm_num [minInt64]
  unfold truncToInt
  rw [if_neg (by push_neg; constructor <;> omega)]
  exact ht

lemma truncToInt_one_le {q : ℚ} (h : 1 ≤ q) (hle : q ≤ (maxInt64 : ℚ)) :
    1 ≤ truncToInt q := by
  have hpos : 0 < q := lt_of_lt_of_le one_pos h
  have hden : (0 : Int) < (q.den : Int) := by exact_mod_cast q.den_pos
  have hnum : (q.den : Int) ≤ q.num := by
    have := Rat.le_def.mp h
    simpa using this
  have ht : 1 ≤ Int.tdiv q.num (q.den : Int) := by
    rw [Int.tdiv_eq_ediv (by linarith) (le_of_lt hden)]
    exact (Int.le_ediv_iff_mul_le hden).mpr (by simpa using hnum)
  have hmax := tdiv_le_maxInt64 hpos hle
  have hmin : minInt64 < 0 := by norm_num [minInt64]
  unfold truncToInt
  rw [if_neg (by push_neg; constructor <;> omega)]
  exact ht

lemma scanRegions_some : ∀ (mrc : List (String × JsonValue)) (n : Int),
    scanRegions mrc = some n →
    ∃ rc ∈ mrc, ∃ q, regionNum rc = some q ∧ 0 < q ∧ n = truncToInt q := by
  intro mrc
  induction mrc with
  | nil => intro n h; simp [scanRegions] at h
  | cons rc rest ih =>
      intro n h
      cases hr : regionHit rc with
      | some m =>
          rw [scanRegions, hr] at h
          cases h
          cases hq : regionNum rc with
          | none => simp [regionHit, hq] at hr
          | some q =>
              simp only [regionHit, hq] at hr
              by_cases hpos : 0 < q
              · rw [if_pos hpos] at hr
                exact ⟨rc, List.mem_cons_self rc rest, q, hq, hpos,
                  (Option.some.inj hr).symm⟩
              · rw [if_neg hpos] at hr
                cases hr
      | none =>
          rw [scanRegions, hr] at h
          obtain ⟨rc', hmem, q, hq, hpos, hn⟩ := ih n h
          exact ⟨rc', List.mem_cons_of_mem _ hmem, q, hq, hpos, hn⟩

/-- C9 counterexample: metadata whose single region reports
`numReplicas = 0.5` passes the `> 0` test but Go's `int(...)`
truncation yields 0, so the resolved replica count is 0 — not positive;
and a region reporting `numReplicas = 1e20` (exactly representable in
float64, integral and positive) overflows the 64-bit conversion, which
on the build platform yields `math.MinInt64` — a negative replica
count. Both refute the claim as stated. -/
theorem resolveReplicaCount_fractional_zero :
    resolveReplicaCount
      (some (metaOfMRC [("us-east4", .obj [("numReplicas", .num (mkRat 1 2))])])) = 0 ∧
    ¬ 0 < resolveReplicaCount
      (some (metaOfMRC [("us-east4", .obj [("numReplicas", .num (mkRat 1 2))])])) ∧
    resolveReplicaCount
      (some (metaOfMRC
        [("us-east4", .obj [("numReplicas", .num (mkRat (10 ^ 20) 1))])])) = minInt64 ∧
    resolveReplicaCount
      (some (metaOfMRC
        [("us-east4", .obj [("numReplicas", .num (mkRat (10 ^ 20) 1))])])) < 0 :=
  ⟨by decide, by decide, by decide, by decide⟩

/-- C9 (amended): the resolved replica count is non-negative whenever
every positive `numReplicas` value in the region map is at most
`math.MaxInt64`, and positive (at least 1) whenever every positive
value also is at least 1 — in particular for all integer values within
the 64-bit range; a fractional value strictly between 0 and 1 truncates
to 0, and a value beyond the 64-bit range converts to the platform's
negative `math.MinInt64`. -/
theorem resolveReplicaCount_nonneg_pos :
    ∀ meta : Option RawMeta,
      ((∀ mrc ∈ metaMRC meta, ∀ rc ∈ mrc, ∀ q, regionNum rc = some q →
          0 < q → q ≤ (maxInt64 : ℚ)) →
        0 ≤ resolveReplicaCount meta) ∧
      ((∀ mrc ∈ metaMRC meta, ∀ rc ∈ mrc, ∀ q, regionNum rc = some q →
          0 < q → 1 ≤ q ∧ q ≤ (maxInt64 : ℚ)) →
        1 ≤ resolveReplicaCount meta) := by
  intro meta
  cases hm : metaMRC meta with
  | none => simp [resolveReplicaCount, hm]
  | some mrc =>
      cases hs : scanRegions mrc with
      | none => simp [resolveReplicaCount, hm, hs]
      | some n =>
          obtain ⟨rc, hmem, q, hq, hpos, rfl⟩ := scanRegions_some mrc n hs
          constructor
          · intro hall
            simp only [resolveReplicaCount, hm, hs]
            refine truncToInt_nonneg hpos (hall mrc ?_ rc hmem q hq hpos)
            rw [Option.mem_def]
          · intro hall
            simp only [resolveReplicaCount, hm, hs]
            obtain ⟨h1, h2⟩ := hall mrc (by rw [Option.mem_def]) rc hmem q hq hpos
            exact truncToInt_one_le h1 h2

/-- Witness for `resolveReplicaCount_nonneg_pos`: the bounds applied to
metadata whose single region reports the integer count 3, which is
within the 64-bit range. -/
theorem resolveReplicaCount_nonneg_pos_witness :
    0 ≤ resolveReplicaCount (some (metaOfMRC [regionB])) ∧
    1 ≤ resolveReplicaCount (some (metaOfMRC [regionB])) :=
  ⟨(resolveReplicaCount_nonneg_pos (some (metaOfMRC [regionB]))).1 (by
      intro mrc hmrc rc hrc q hq _
      have h1 : metaMRC (some (metaOfMRC [regionB])) = some mrc := hmrc
      have h2 : (some [regionB] : Option (List (String × JsonValue))) = some mrc := h1
      have hmeq : mrc = [regionB] := (Option.some.inj h2).symm
      subst hmeq
      have hrc' : rc = regionB := List.mem_singleton.mp hrc
      subst hrc'
      have hq3 : (some (3 : ℚ) : Option ℚ) = some q := hq
      rw [← Option.some.inj hq3]
      norm_num [maxInt64]),
   (resolveReplicaCount_nonneg_pos (some (metaOfMRC [regionB]))).2 (by
      intro mrc hmrc rc hrc q hq _
      have h1 : metaMRC (some (metaOfMRC [regionB])) = some mrc := hmrc
      have h2 : (some [regionB] : Option (List (String × JsonValue))) = some mrc := h1
      have hmeq : mrc = [regionB] := (Option.some.inj h2).symm
      subst hmeq
      have hrc' : rc = regionB := List.mem_singleton.mp hrc
      subst hrc'
      have hq3 : (some (3 : ℚ) : Option ℚ) = some q := hq
      rw [← Option.some.inj hq3]
      constructor
      · norm_num
      · norm_num [maxInt64])⟩

/-- The services of the list that match some marker, by name and in
order — what a failure-free run reports as updated. -/
def matchedNames (markers : List GoStr) (services : List Service) : List String :=
  services.filterMap fun s =>
    if matchesPrefix s.image markers then some s.name else none

/-- The remote mutations a fully successful pass over one service
issues: nothing for an unmatched service, and the update followed by
the deploy, with the rewritten image, for a matched one. -/
def serviceEvents (markers : List GoStr) (newVersion : GoStr) (s : Service) :
    List RemoteEvent :=
  match List.find? (fun m => m.isPrefixOf s.image) markers with
  | none => []
  | some marker =>
      [.updateInstance s.id (finalImage s.image marker newVersion) s.numReplicas,
       .deploy s.id]

/-- The remote mutations issued for the failing service: the update
alone when the update mutation fails, or the update and the deploy when
the deploy mutation fails. -/
def failEvents (oracle : RemoteOracle) (markers : List GoStr) (newVersion : GoStr)
    (s : Service) : List RemoteEvent :=
  match List.find? (fun m => m.isPrefixOf s.image) markers with
  | none => []
  | some marker =>
      match oracle.updateResult s.id with
      | some _ => [.updateInstance s.id (finalImage s.image marker newVersion) s.numReplicas]
      | none => [.updateInstance s.id (finalImage s.image marker newVersion) s.numReplicas,
                 .deploy s.id]

/-- The wrapped error `UpdateServiceImage` reports for a failing
service. -/
def failMessage (oracle : RemoteOracle) (s : Service) : String :=
  match oracle.updateResult s.id with
  | some m => "failed to update service instance: " ++ m
  | none =>
      match oracle.deployResult s.id with
      | some m => "failed to deploy service instance: " ++ m
      | none => ""

/-- The concatenated event blocks of a list of services, in list
order. -/
def tracePre (markers : List GoStr) (newVersion : GoStr) : List Service → List RemoteEvent
  | [] => []
  | s :: rest => serviceEvents markers newVersion s ++ tracePre markers newVersion rest

/-- What stopping at the first failing service means for the run over
`pre ++ s :: post`: exactly the matched services of `pre` are reported
updated, the error wraps the failing service's name and underlying
cause, and the trace is the per-service update-then-deploy blocks of
`pre` in order followed by the failing service's partial block —
nothing of `post` is processed and nothing is rolled back. -/
def stopsAtSpec (oracle : RemoteOracle) (markers : List GoStr) (newVersion : GoStr)
    (pre : List Service) (s : Service) (post : List Service) : Prop :=
  (updateServicesLoop oracle markers newVersion (pre ++ s :: post)).updated =
    matchedNames markers pre ∧
  (updateServicesLoop oracle markers newVersion (pre ++ s :: post)).err =
    some ("failed to update service " ++ s.name ++ ": " ++ failMessage oracle s) ∧
  (updateServicesLoop oracle markers newVersion (pre ++ s :: post)).trace =
    tracePre markers newVersion pre ++ failEvents oracle markers newVersion s

/-- Demo service that succeeds. -/
def demoA : Service := ⟨"id-a", "svc-a", "app:1".toList, 1⟩

/-- Demo service whose update mutation fails. -/
def demoB : Service := ⟨"id-b", "svc-b", "app:1".toList, 1⟩

/-- Demo service after the failing one. -/
def demoC : Service := ⟨"id-c", "svc-c", "app:1".toList, 1⟩

/-- Oracle failing the update mutation of `demoB` only. -/
def demoOracle : RemoteOracle :=
  ⟨fun id => if id = "id-b" then some "boom" else none, fun _ => none⟩

/-- C3: for each matched service the updater issues the image update
and then the redeploy strictly sequentially in lister order; on the
first failing service it stops, reporting exactly the services updated
before it together with an error naming the failing service, with no
rollback of the already-issued updates (first conjunct, via
`stopsAtSpec`); in particular for a failure on the second of three
matching services exactly the first is reported updated. -/
theorem updateServices_stops_at_first_failure :
    (∀ (oracle : RemoteOracle) (markers : List GoStr) (newVersion : GoStr)
        (pre : List Service) (s : Service) (post : List Service),
      (∀ t ∈ pre, matchesPrefix t.image markers = true →
        oracle.updateResult t.id = none ∧ oracle.deployResult t.id = none) →
      matchesPrefix s.image markers = true →
      ¬ (oracle.updateResult s.id = none ∧ oracle.deployResult s.id = none) →
      stopsAtSpec oracle markers newVersion pre s post) ∧
    (updateServicesLoop demoOracle ["app".toList] "2".toList
        [demoA, demoB, demoC]).updated = ["svc-a"] ∧
    (updateServicesLoop demoOracle ["app".toList] "2".toList
        [demoA, demoB, demoC]).err =
      some "failed to update service svc-b: failed to update service instance: boom" := by
  refine ⟨?_, by decide, by decide⟩
  intro oracle markers newVersion pre
  induction pre with
  | nil =>
      intro s post _ hs hfail
      have hsome : (List.find? (fun m => m.isPrefixOf s.image) markers).isSome :=
        List.find?_isSome.mpr (by
          obtain ⟨m, hm, hpre⟩ := (matchesPrefix_true_iff s.image markers).mp hs
          exact ⟨m, hm, isPrefixOf_eq_true_iff.mpr hpre⟩)
      obtain ⟨marker, hfind⟩ := Option.isSome_iff_exists.mp hsome
      cases hu : oracle.updateResult s.id with
      | some m =>
          simp [stopsAtSpec, updateServicesLoop, hfind, UpdateServiceImage, hu,
            matchedNames, tracePre, failEvents, failMessage]
      | none =>
          obtain ⟨m, hdep⟩ : ∃ m, oracle.deployResult s.id = some m := by
            cases hdep : oracle.deployResult s.id with
            | none => exact absurd ⟨hu, hdep⟩ hfail
            | some m => exact ⟨m, rfl⟩
          simp [stopsAtSpec, updateServicesLoop, hfind, UpdateServiceImage, hu, hdep,
            matchedNames, tracePre, failEvents, failMessage]
  | cons t rest ih =>
      intro s post hpre hs hfail
      have hrest := ih s post (fun u hu => hpre u (List.mem_cons_of_mem _ hu)) hs hfail
      simp only [stopsAtSpec] at hrest ⊢
      obtain ⟨h1, h2, h3⟩ := hrest
      by_cases hmt : matchesPrefix t.image markers = true
      · have ht := hpre t (List.mem_cons_self t rest) hmt
        have hsome : (List.find? (fun m => m.isPrefixOf t.image) markers).isSome :=
          List.find?_isSome.mpr (by
            obtain ⟨m, hm, hpret⟩ := (matchesPrefix_true_iff t.image markers).mp hmt
            exact ⟨m, hm, isPrefixOf_eq_true_iff.mpr hpret⟩)
        obtain ⟨marker, hfind⟩ := Option.isSome_iff_exists.mp hsome
        refine ⟨?_, ?_, ?_⟩ <;>
          simp [updateServicesLoop, hfind, UpdateServiceImage, ht.1, ht.2,
            matchedNames, List.filterMap_cons, hmt, serviceEvents, tracePre,
            h1, h2, h3, List.cons_append]
      · have hmf : matchesPrefix t.image markers = false := by
          simpa using hmt
        have hfindn := (matchesPrefix_false_iff t.image markers).mp hmf
        refine ⟨?_, ?_, ?_⟩ <;>
          simp [updateServicesLoop, hfindn, matchedNames, List.filterMap_cons, hmf,
            serviceEvents, tracePre, h1, h2, h3, List.cons_append]

/-- Witness for `updateServices_stops_at_first_failure`: with three
matching services and the second one's update mutation failing, the run
stops there having updated only the first. -/
theorem updateServices_stops_at_first_failure_witness :
    stopsAtSpec demoOracle ["app".toList] "2".toList [demoA] demoB [demoC] :=
  updateServices_stops_at_first_failure.1 demoOracle ["app".toList] "2".toList
    [demoA] demoB [demoC] (by decide) (by decide) (by decide)

/-- C7: a valid PUT request whose markers match zero services (the
remote call succeeding with the empty updated list) gets a 200 response
with the explicit no-match message and an updated_services list that is
present and empty; and the update loop indeed finishes with an empty
updated list and no error when no service matches. -/
theorem handleUpdate_zero_match_ok :
    (∀ (uuidValid : String → Bool) (req : UpdateRequest),
      uuidValid req.projectId = true → uuidValid req.environmentId = true →
      req.imagePrefixes ≠ [] → req.newVersion ≠ [] →
      handleUpdate uuidValid (.ok []) .put (.parsed req) =
        ⟨200, .successResp "No services matched the provided image prefixes" [], true⟩) ∧
    (∀ (oracle : RemoteOracle) (markers : List GoStr) (newVersion : GoStr)
        (services : List Service),
      (∀ s ∈ services, matchesPrefix s.image markers = false) →
      updateServicesLoop oracle markers newVersion services = ⟨[], [], none⟩) := by
  constructor
  · intro uuidValid req h1 h2 h3 h4
    simp [handleUpdate, h1, h2, h3, h4, List.length_eq_zero]
  · intro oracle markers newVersion services h
    exact updateServicesLoop_no_match oracle markers newVersion services h

/-- Witness for `handleUpdate_zero_match_ok`: a syntactically valid
request against an environment where nothing matched. -/
theorem handleUpdate_zero_match_ok_witness :
    handleUpdate (fun _ => true) (.ok []) .put
      (.parsed ⟨"p", "e", ["myapp".toList], "v2".toList⟩) =
      ⟨200, .successResp "No services matched the provided image prefixes" [], true⟩ :=
  handleUpdate_zero_match_ok.1 (fun _ => true) ⟨"p", "e", ["myapp".toList], "v2".toList⟩
    rfl rfl (by decide) (by decide)

/-- C8: a PUT request with an invalid project or environment UUID gets
400 naming the offending field; an empty marker list or empty version
gets 400; a malformed JSON body gets 400 with a non-empty error
message; and none of these paths reaches the remote call. -/
theorem handleUpdate_validation :
    (∀ (uuidValid : String → Bool) (remote : Except String (List String))
        (decodeErr : String),
      handleUpdate uuidValid remote .put (.malformed decodeErr) =
        ⟨400, .errorResp ("Invalid JSON: " ++ decodeErr), false⟩ ∧
      "Invalid JSON: " ++ decodeErr ≠ "") ∧
    (∀ (uuidValid : String → Bool) (remote : Except String (List String))
        (req : UpdateRequest),
      uuidValid req.projectId = false →
      handleUpdate uuidValid remote .put (.parsed req) =
        ⟨400, .errorResp "Invalid project_id: must be a valid UUID", false⟩) ∧
    (∀ (uuidValid : String → Bool) (remote : Except String (List String))
        (req : UpdateRequest),
      uuidValid req.projectId = true → uuidValid req.environmentId = false →
      handleUpdate uuidValid remote .put (.parsed req) =
        ⟨400, .errorResp "Invalid environment_id: must be a valid UUID", false⟩) ∧
    (∀ (uuidValid : String → Bool) (remote : Except String (List String))
        (req : UpdateRequest),
      req.imagePrefixes = [] →
      (handleUpdate uuidValid remote .put (.parsed req)).status = 400 ∧
      (handleUpdate uuidValid remote .put (.parsed req)).calledRemote = false) ∧
    (∀ (uuidValid : String → Bool) (remote : Except String (List String))
        (req : UpdateRequest),
      req.newVersion = [] →
      (handleUpdate uuidValid remote .put (.parsed req)).status = 400 ∧
      (handleUpdate uuidValid remote .put (.parsed req)).calledRemote = false) := by
  refine ⟨?_, ?_, ?_, ?_, ?_⟩
  · intro uuidValid remote decodeErr
    refine ⟨rfl, ?_⟩
    intro h
    have h2 : ("Invalid JSON: " ++ decodeErr).data = "".data := congrArg String.data h
    simp [String.data_append] at h2
  · intro uuidValid remote req h1
    simp [handleUpdate, h1]
  · intro uuidValid remote req h1 h2
    simp [handleUpdate, h1, h2]
  · intro uuidValid remote req hp
    by_cases h1 : uuidValid req.projectId = false
    · simp [handleUpdate, h1]
    · simp only [Bool.not_eq_false] at h1
      by_cases h2 : uuidValid req.environmentId = false
      · simp [handleUpdate, h1, h2]
      · simp only [Bool.not_eq_false] at h2
        simp [handleUpdate, h1, h2, hp]
  · intro uuidValid remote req hv
    by_cases h1 : uuidValid req.projectId = false
    · simp [handleUpdate, h1]
    · simp only [Bool.not_eq_false] at h1
      by_cases h2 : uuidValid req.environmentId = false
      · simp [handleUpdate, h1, h2]
      · simp only [Bool.not_eq_false] at h2
        by_cases h3 : req.imagePrefixes.length = 0
        · simp [handleUpdate, h1, h2, h3]
        · simp [handleUpdate, h1, h2, h3, hv]

/-- Witness for `handleUpdate_validation`: a request whose project id
fails UUID validation is rejected with the field-specific message. -/
theorem handleUpdate_validation_witness :
    handleUpdate (fun _ => false) (.ok []) .put
      (.parsed ⟨"not-a-uuid", "e", ["myapp".toList], "v2".toList⟩) =
      ⟨400, .errorResp "Invalid project_id: must be a valid UUID", false⟩ :=
  handleUpdate_validation.2.1 (fun _ => false) (.ok [])
    ⟨"not-a-uuid", "e", ["myapp".toList], "v2".toList⟩ rfl

/-- C10: request validation only checks that the marker list is
non-empty, so a list containing the empty string passes and the remote
update is invoked; an empty-string marker matches every image; and with
every remote step succeeding, the run over an environment containing an
empty-string marker updates exactly the listed services, i.e. those
with a non-empty image source. -/
theorem emptyMarker_matches_all :
    (∀ (uuidValid : String → Bool) (remote : Except String (List String))
        (req : UpdateRequest),
      uuidValid req.projectId = true → uuidValid req.environmentId = true →
      [] ∈ req.imagePrefixes → req.newVersion ≠ [] →
      (handleUpdate uuidValid remote .put (.parsed req)).calledRemote = true) ∧
    (∀ (image : GoStr) (markers : List GoStr), [] ∈ markers →
      matchesPrefix image markers = true) ∧
    (∀ (oracle : RemoteOracle) (markers : List GoStr) (newVersion : GoStr)
        (nodes : List ServiceNode),
      [] ∈ markers →
      (∀ s ∈ GetServices nodes,
        oracle.updateResult s.id = none ∧ oracle.deployResult s.id = none) →
      (UpdateServices oracle nodes markers newVersion).updated =
        (GetServices nodes).map Service.name ∧
      (UpdateServices oracle nodes markers newVersion).err = none) := by
  refine ⟨?_, ?_, ?_⟩
  · intro uuidValid remote req h1 h2 h3 h4
    have h3' : req.imagePrefixes ≠ [] := List.ne_nil_of_mem h3
    cases remote with
    | error e => simp [handleUpdate, h1, h2, h3', h4, List.length_eq_zero]
    | ok updated =>
        by_cases h5 : updated.length = 0 <;>
          simp [handleUpdate, h1, h2, h3', h4, List.length_eq_zero, h5]
  · intro image markers hm
    exact (matchesPrefix_true_iff image markers).mpr ⟨[], hm, List.nil_prefix⟩
  · intro oracle markers newVersion nodes hm h
    exact updateServicesLoop_all_success oracle markers newVersion hm (GetServices nodes) h

/-- Witness for `emptyMarker_matches_all`: with the marker list
containing only the empty string and an all-success remote, both listed
services (the node without an image source being excluded by the
lister) are updated. -/
theorem emptyMarker_matches_all_witness :
    (UpdateServices ⟨fun _ => none, fun _ => none⟩
        [⟨"id1", "svc1", "myapp:v1".toList, none⟩,
         ⟨"id2", "db-plugin", [], none⟩,
         ⟨"id3", "svc3", "other:v2".toList, none⟩]
        [[]] "v9".toList).updated =
      (GetServices
        [⟨"id1", "svc1", "myapp:v1".toList, none⟩,
         ⟨"id2", "db-plugin", [], none⟩,
         ⟨"id3", "svc3", "other:v2".toList, none⟩]).map Service.name ∧
    (UpdateServices ⟨fun _ => none, fun _ => none⟩
        [⟨"id1", "svc1", "myapp:v1".toList, none⟩,
         ⟨"id2", "db-plugin", [], none⟩,
         ⟨"id3", "svc3", "other:v2".toList, none⟩]
        [[]] "v9".toList).err = none :=
  emptyMarker_matches_all.2.2 ⟨fun _ => none, fun _ => none⟩ [[]] "v9".toList
    [⟨"id1", "svc1", "myapp:v1".toList, none⟩,
     ⟨"id2", "db-plugin", [], none⟩,
     ⟨"id3", "svc3", "other:v2".toList, none⟩]
    (by decide) (by intro s _; exact ⟨rfl, rfl⟩)
